import Mathlib

/-!
# Verification of `mikrod_util.py` — multi-packet BLE reassembly core

Shallow embedding of `src/multipacket_ble.py` (class `MultiPacketBLEReceiver`,
class `StreamBuffer`, function `parse_captouch_data`).

Modelling conventions:
* Python `bytes` become `List Nat` (each entry a byte value; theorems that
  depend on byte-ness carry explicit `< 256` hypotheses where it matters).
* Python dicts become association lists with dict semantics: assignment
  updates the entry in place when the key is present, otherwise appends
  (Python dicts preserve insertion order); `del` removes the entry.
* `datetime` timestamps become `Int`; `timedelta` comparisons
  `now - t > timeout` become integer comparisons.
* Python exceptions caught by the code become `Option` / `Except` values:
  `struct.unpack` on a slice of the wrong size and out-of-range indexing
  raise, and `process_packet` / `_parse_packet_header` catch every
  exception and return `None`, so a failed read is `none`.
* The parser registry `self.parsers` is never mutated by `process_packet`,
  so it is passed as an explicit argument `P` instead of living in the
  state record; parser functions raise (`Except.error`) or return a value.
* The `parsed` result type is a type parameter `π`; the dict key
  `'parsed'`, absent until a parser succeeds, is `Option π`.
-/

abbrev Bytes := List Nat

/-- Association-list write with Python-dict semantics: update in place when
the key is present, append otherwise. -/
def updAssoc {α β : Type} [BEq α] (l : List (α × β)) (k : α) (v : β) :
    List (α × β) :=
  if (List.lookup k l).isSome then
    l.map (fun p => if p.1 == k then (k, v) else p)
  else
    l ++ [(k, v)]

/-- Association-list `del`: removes the entry with the given key. -/
def eraseAssoc {α β : Type} [BEq α] (l : List (α × β)) (k : α) :
    List (α × β) :=
  l.filter (fun p => !(p.1 == k))

/-- `MultiPacketBLEReceiver.COMPANY_ID`. -/
def COMPANY_ID : Nat := 0xFFE5

/-- `MultiPacketBLEReceiver.PROTOCOL_ID`. -/
def PROTOCOL_ID : Nat := 0xAA

/-- Result of `_parse_packet_header` (the dict it returns on success). -/
structure FragmentHeader where
  data_type : Nat
  stream_id : Nat
  total_packets : Nat
  sequence : Nat
  payload_length : Nat
  payload : Bytes
deriving Repr, DecidableEq

/-- One byte read `data_bytes[i]`; `none` models the `IndexError` that the
surrounding `try` of `_parse_packet_header` turns into `None`. -/
def readU8 (d : Bytes) (i : Nat) : Option Nat := d[i]?

/-- `struct.unpack('<H', data_bytes[i:i+2])[0]`: little-endian u16; `none`
models the `struct.error` raised when the slice is shorter than 2 bytes. -/
def readU16LE (d : Bytes) (i : Nat) : Option Nat := do
  let lo ← d[i]?
  let hi ← d[(i+1)]?
  pure (lo + 256 * hi)

/-- `MultiPacketBLEReceiver._parse_packet_header`.  The code first rejects
buffers shorter than 10 bytes, then reads all header fields (any read past
the end raises and is caught, yielding `None`), then checks the protocol
constants and `sequence >= total_packets`, and on success returns the header
with `payload = data_bytes[16:]`. -/
def parsePacketHeader (d : Bytes) : Option FragmentHeader :=
  if d.length < 10 then none
  else do
    let company ← readU16LE d 0
    let protocol ← readU8 d 2
    let dtype ← readU8 d 3
    -- bytes 4-9 are the MAC address, skipped by the code
    let sid ← readU16LE d 10
    let total ← readU8 d 12
    let seq ← readU8 d 13
    let plen ← readU16LE d 14
    if company ≠ COMPANY_ID then none
    else if protocol ≠ PROTOCOL_ID then none
    else if seq ≥ total then none
    else some ⟨dtype, sid, total, seq, plen, d.drop 16⟩

/-- `class StreamBuffer`: per-`(device_id, stream_id)` assembly state.
`packets` is the dict `{sequence: payload_bytes}`. -/
structure StreamBuffer where
  device_id : String
  stream_id : Nat
  data_type : Nat
  total_packets : Nat
  payload_length : Nat
  first_packet_time : Int
  packets : List (Nat × Bytes)
deriving Repr, DecidableEq

/-- `StreamBuffer.add_packet`: `self.packets[sequence] = payload`
(overwrites an occupied slot, which the code only logs). -/
def StreamBuffer.add_packet (b : StreamBuffer) (sequence : Nat)
    (payload : Bytes) : StreamBuffer :=
  { b with packets := updAssoc b.packets sequence payload }

/-- `StreamBuffer.is_complete`: `len(self.packets) == self.total_packets`. -/
def StreamBuffer.is_complete (b : StreamBuffer) : Bool :=
  b.packets.length == b.total_packets

/-- `StreamBuffer.packets_received`. -/
def StreamBuffer.packets_received (b : StreamBuffer) : Nat :=
  b.packets.length

/-- The dict returned by `StreamBuffer.get_data`, which `process_packet`
returns as the completed stream; `parsed` models the `'parsed'` key that
`process_packet` adds when a registered parser succeeds. -/
structure CompletedMessage (π : Type) where
  device_id : String
  stream_id : Nat
  data_type : Nat
  timestamp : Int
  data : Bytes
  length : Nat
  expected_length : Nat
  packets_received : Nat
  packets_expected : Nat
  complete : Bool
  missing_packets : List Nat
  parsed : Option π
deriving Repr, DecidableEq

/-- `StreamBuffer.get_data`: walks `range(total_packets)` concatenating
present payloads and recording absent sequences in `missing`, trims the
result to `payload_length` when longer, and builds the result dict. -/
def StreamBuffer.get_data {π : Type} (b : StreamBuffer) :
    CompletedMessage π :=
  let joined := ((List.range b.total_packets).filterMap
      (fun seq => List.lookup seq b.packets)).flatten
  let missing := (List.range b.total_packets).filter
      (fun seq => (List.lookup seq b.packets).isNone)
  let data := if joined.length > b.payload_length
      then joined.take b.payload_length else joined
  { device_id := b.device_id
    stream_id := b.stream_id
    data_type := b.data_type
    timestamp := b.first_packet_time
    data := data
    length := data.length
    expected_length := b.payload_length
    packets_received := b.packets.length
    packets_expected := b.total_packets
    complete := missing.length == 0
    missing_packets := missing
    parsed := none }

/-- The `self.stats` counter dict of `MultiPacketBLEReceiver`. -/
structure Stats where
  packets_received : Nat
  packets_duplicate : Nat
  streams_completed : Nat
  streams_timeout : Nat
  parse_errors : Nat
deriving Repr, DecidableEq

/-- The mutable state of a `MultiPacketBLEReceiver` (minus the parser
registry, which `process_packet` never mutates and is passed separately). -/
structure Receiver (π : Type) where
  stream_timeout : Int
  dedup_timeout : Int
  streams : List ((String × Nat) × StreamBuffer)
  seen_packets : List ((String × Nat × Nat) × Int)
  completed_streams : List (CompletedMessage π)
  stats : Stats
deriving Repr, DecidableEq

/-- `MultiPacketBLEReceiver.__init__` (fresh state, all tables empty). -/
def mkReceiver (π : Type) (stream_timeout dedup_timeout : Int) :
    Receiver π :=
  ⟨stream_timeout, dedup_timeout, [], [], [], ⟨0, 0, 0, 0, 0⟩⟩

/-- The parser registry `self.parsers`: data type byte to parser function.
A Python parser either returns a value or raises, hence `Except`. -/
def Parsers (π : Type) := Nat → Option (Bytes → Except String π)

/-- The `StreamBuffer(...)` constructor call on line 160 of the source:
the buffer created for the first fragment of a new stream key, seeded
from that fragment's header. -/
def freshBuffer (device_id : String) (h : FragmentHeader) (ts : Int) :
    StreamBuffer :=
  ⟨device_id, h.stream_id, h.data_type, h.total_packets,
   h.payload_length, ts, []⟩

/-- `self.streams[stream_key]` after the look-up-or-create step of
`process_packet`: the existing buffer in the stream table, or a fresh
one. -/
def streamFor (streams : List ((String × Nat) × StreamBuffer))
    (device_id : String) (h : FragmentHeader) (ts : Int) : StreamBuffer :=
  match List.lookup (device_id, h.stream_id) streams with
  | some s => s
  | none => freshBuffer device_id h ts

/-- The parser attempt of `process_packet` on a completed stream:
a registered parser that returns sets the `parsed` key, a registered
parser that raises leaves the message untouched and bumps the
parse-error counter, no registered parser does nothing. -/
def runParser {π : Type} (P : Parsers π) (dt : Nat)
    (cd : CompletedMessage π) (parse_errors : Nat) :
    CompletedMessage π × Nat :=
  match P dt with
  | none => (cd, parse_errors)
  | some f => match f cd.data with
    | Except.ok p => ({ cd with parsed := some p }, parse_errors)
    | Except.error _ => (cd, parse_errors + 1)

/-- The non-duplicate path of `process_packet` (everything after the
dedup check): mark seen, look up or create the stream buffer, add the
fragment, and on completion assemble, run the registered parser,
drop the buffer and deliver the message. -/
def acceptParsed {π : Type} (P : Parsers π) (r : Receiver π)
    (device_id : String) (h : FragmentHeader) (ts : Int) :
    Receiver π × Option (CompletedMessage π) :=
  let seen2 := updAssoc r.seen_packets (device_id, h.stream_id, h.sequence) ts
  let r2 := { r with seen_packets := seen2 }
  let stream1 := (streamFor r2.streams device_id h ts).add_packet h.sequence
    h.payload
  let streamsUpd := updAssoc r2.streams (device_id, h.stream_id) stream1
  if stream1.is_complete then
    let res := runParser P h.data_type stream1.get_data r2.stats.parse_errors
    ({ r2 with
        streams := eraseAssoc streamsUpd (device_id, h.stream_id),
        completed_streams := r2.completed_streams ++ [res.1],
        stats := { r2.stats with
          streams_completed := r2.stats.streams_completed + 1,
          parse_errors := res.2 } },
     some res.1)
  else
    ({ r2 with streams := streamsUpd }, none)

/-- `process_packet` after header parsing: the dedup check. -/
def processParsed {π : Type} (P : Parsers π) (r : Receiver π)
    (device_id : String) (h : FragmentHeader) (ts : Int) :
    Receiver π × Option (CompletedMessage π) :=
  if (List.lookup (device_id, h.stream_id, h.sequence) r.seen_packets).isSome
  then
    ({ r with stats := { r.stats with
        packets_duplicate := r.stats.packets_duplicate + 1 } }, none)
  else acceptParsed P r device_id h ts

/-- `MultiPacketBLEReceiver.process_packet` on byte input (the `bytes`
branch of `_parse_manufacturer_data` is the identity).  The received
counter is bumped unconditionally, then the header is parsed (`None`
on failure), then dedup / assembly / completion. -/
def bumpReceived {π : Type} (r : Receiver π) : Receiver π :=
  { r with stats := { r.stats with
      packets_received := r.stats.packets_received + 1 } }

def process_packet {π : Type} (P : Parsers π) (r : Receiver π)
    (device_id : String) (data : Bytes) (ts : Int) :
    Receiver π × Option (CompletedMessage π) :=
  match parsePacketHeader data with
  | none => (bumpReceived r, none)
  | some h => processParsed P (bumpReceived r) device_id h ts

/-- `MultiPacketBLEReceiver.cleanup`: drop streams older than
`stream_timeout` (bumping the timeout counter once per dropped stream)
and dedup entries older than `dedup_timeout`. -/
def cleanup {π : Type} (r : Receiver π) (now : Int) : Receiver π :=
  let expired := r.streams.filter
      (fun p => decide (now - p.2.first_packet_time > r.stream_timeout))
  { r with
    streams := r.streams.filter
      (fun p => !decide (now - p.2.first_packet_time > r.stream_timeout))
    seen_packets := r.seen_packets.filter
      (fun p => !decide (now - p.2 > r.dedup_timeout))
    stats := { r.stats with
      streams_timeout := r.stats.streams_timeout + expired.length } }

/-- `MultiPacketBLEReceiver.get_completed_stream`: pop the oldest
completed stream (`list.pop(0)`), `None` when the queue is empty. -/
def get_completed_stream {π : Type} (r : Receiver π) :
    Receiver π × Option (CompletedMessage π) :=
  match r.completed_streams with
  | [] => (r, none)
  | m :: rest => ({ r with completed_streams := rest }, some m)

/-- The dict returned by `MultiPacketBLEReceiver.get_stats`. -/
structure StatsReport where
  packets_received : Nat
  packets_duplicate : Nat
  streams_completed : Nat
  streams_timeout : Nat
  parse_errors : Nat
  active_streams : Nat
  dedup_cache_size : Nat
  completed_pending : Nat
deriving Repr, DecidableEq

/-- `MultiPacketBLEReceiver.get_stats`. -/
def get_stats {π : Type} (r : Receiver π) : StatsReport :=
  { packets_received := r.stats.packets_received
    packets_duplicate := r.stats.packets_duplicate
    streams_completed := r.stats.streams_completed
    streams_timeout := r.stats.streams_timeout
    parse_errors := r.stats.parse_errors
    active_streams := r.streams.length
    dedup_cache_size := r.seen_packets.length
    completed_pending := r.completed_streams.length }

/-- `struct.unpack('>h', bytes([hi, lo]))[0]`: big-endian signed 16-bit. -/
def int16BE (hi lo : Nat) : Int :=
  let u := hi * 256 + lo
  if u < 32768 then (u : Int) else (u : Int) - 65536

/-- The dict built by `parse_captouch_data`. -/
structure CaptouchResult where
  total_samples : Nat
  vdd_ref : List Int
  gnd_ref : List Int
  self_cap_raw : List Int
  mutual_cap_raw : List Int
  vdd_avg : ℚ
  gnd_avg : ℚ
  adc_range : ℚ
deriving Repr, DecidableEq

/-- The 84 samples decoded by the loop in `parse_captouch_data`. -/
def captouchSamples (data : Bytes) : List Int :=
  (List.range 84).map
    (fun i => int16BE (data.getD (2 * i) 0) (data.getD (2 * i + 1) 0))

/-- `parse_captouch_data`: raises (`Except.error`) when the input is
shorter than 168 bytes, otherwise decodes 84 big-endian signed 16-bit
samples, splits them into the four named slices and computes the two
averages and their difference. -/
def parse_captouch_data (data : Bytes) : Except String CaptouchResult :=
  if data.length < 168 then
    Except.error ("Incomplete captouch data: " ++ toString data.length
      ++ "/168 bytes")
  else
    let samples := captouchSamples data
    let vdd_ref := (samples.take 8)
    let gnd_ref := (samples.drop 8).take 8
    let self_cap_raw := (samples.drop 16).take 34
    let mutual_cap_raw := (samples.drop 50).take 34
    let vdd_avg : ℚ := (vdd_ref.sum : ℚ) / (vdd_ref.length : ℚ)
    let gnd_avg : ℚ := (gnd_ref.sum : ℚ) / (gnd_ref.length : ℚ)
    Except.ok
      { total_samples := samples.length
        vdd_ref := vdd_ref
        gnd_ref := gnd_ref
        self_cap_raw := self_cap_raw
        mutual_cap_raw := mutual_cap_raw
        vdd_avg := vdd_avg
        gnd_avg := gnd_avg
        adc_range := vdd_avg - gnd_avg }

/-! ## Association-list helper lemmas -/

theorem lookup_isSome_iff_mem_keys {α β : Type} [BEq α] [LawfulBEq α]
    (l : List (α × β)) (k : α) :
    (List.lookup k l).isSome ↔ k ∈ l.map Prod.fst := by
  rw [List.lookup_isSome_iff]
  constructor
  · rintro ⟨p, hp, hk⟩
    exact List.mem_map.2 ⟨p, hp, (eq_of_beq hk).symm⟩
  · intro hk
    rcases List.mem_map.1 hk with ⟨p, hp, hfst⟩
    exact ⟨p, hp, by simp [hfst]⟩

theorem lookup_eq_none_iff_not_mem_keys {α β : Type} [BEq α] [LawfulBEq α]
    (l : List (α × β)) (k : α) :
    List.lookup k l = none ↔ k ∉ l.map Prod.fst := by
  rw [← lookup_isSome_iff_mem_keys, ← Option.not_isSome_iff_eq_none]

theorem keys_updAssoc {α β : Type} [BEq α] [LawfulBEq α]
    (l : List (α × β)) (k : α) (v : β) :
    (updAssoc l k v).map Prod.fst =
      if (List.lookup k l).isSome then l.map Prod.fst
      else l.map Prod.fst ++ [k] := by
  unfold updAssoc
  split
  · next hs =>
    rw [List.map_map]
    apply List.map_congr_left
    intro p _
    by_cases hpk : p.1 == k
    · simp [hpk, eq_of_beq hpk]
    · simp [hpk]
  · next hs =>
    simp [hs]

theorem updAssoc_of_lookup_none {α β : Type} [BEq α]
    (l : List (α × β)) (k : α) (v : β) (h : List.lookup k l = none) :
    updAssoc l k v = l ++ [(k, v)] := by
  unfold updAssoc
  simp [h]

theorem mem_eq_of_lookup_nodup {α β : Type} [BEq α] [LawfulBEq α]
    (l : List (α × β)) (hnd : (l.map Prod.fst).Nodup) (k : α) (v : β)
    (hb : List.lookup k l = some v) :
    ∀ p ∈ l, p.1 = k → p = (k, v) := by
  rcases List.lookup_eq_some_iff.1 hb with ⟨l₁, l₂, rfl, hl₁⟩
  intro p hp hpk
  rcases List.mem_append.1 hp with hp1 | hp2
  · have hne : k ≠ p.1 := by simpa using hl₁ p hp1
    exact absurd hpk.symm hne
  · rcases List.mem_cons.1 hp2 with rfl | hp3
    · rfl
    · exfalso
      rw [List.map_append, List.map_cons] at hnd
      have hk2 : k ∈ l₂.map Prod.fst := List.mem_map.2 ⟨p, hp3, hpk⟩
      have hnd2 := (List.nodup_append.1 hnd).2.1
      exact (List.nodup_cons.1 hnd2).1 hk2

/-! ## Fragment Decoder lemmas -/

theorem parsePacketHeader_eq_none_of_short (d : Bytes) (h : d.length < 16) :
    parsePacketHeader d = none := by
  unfold parsePacketHeader
  by_cases h10 : d.length < 10
  · simp [h10]
  · have h15 : d[(15 : Nat)]? = none := by
      rw [List.getElem?_eq_none]
      omega
    have hplen : readU16LE d 14 = none := by
      unfold readU16LE
      cases h14 : d[(14 : Nat)]? <;> simp [h14, h15]
    simp only [h10, if_false]
    cases hc : readU16LE d 0 <;>
      cases hp2 : readU8 d 2 <;>
      cases hp3 : readU8 d 3 <;>
      cases hsid : readU16LE d 10 <;>
      cases h12 : readU8 d 12 <;>
      cases h13 : readU8 d 13 <;>
      simp [hc, hp2, hp3, hsid, h12, h13, hplen, Option.bind]

theorem parsePacketHeader_eq_of_long (d : Bytes) (h : 16 ≤ d.length) :
    parsePacketHeader d =
      (if d.getD 0 0 + 256 * d.getD 1 0 ≠ COMPANY_ID then none
       else if d.getD 2 0 ≠ PROTOCOL_ID then none
       else if d.getD 13 0 ≥ d.getD 12 0 then none
       else some ⟨d.getD 3 0, d.getD 10 0 + 256 * d.getD 11 0, d.getD 12 0,
                  d.getD 13 0, d.getD 14 0 + 256 * d.getD 15 0,
                  d.drop 16⟩) := by
  have key : ∀ i : Nat, i < 16 → d[i]? = some (d.getD i 0) := by
    intro i hi
    have hlt : i < d.length := lt_of_lt_of_le hi h
    rw [List.getElem?_eq_getElem hlt, List.getD_eq_getElem?_getD,
      List.getElem?_eq_getElem hlt]
    rfl
  have h10 : ¬ d.length < 10 := by omega
  unfold parsePacketHeader readU16LE readU8
  simp only [h10, if_false,
    key 0 (by omega), key 1 (by omega), key 2 (by omega), key 3 (by omega),
    key 10 (by omega), key 11 (by omega), key 12 (by omega),
    key 13 (by omega), key 14 (by omega), key 15 (by omega)]
  rfl

theorem sequence_lt_total_of_parse (d : Bytes) (h : FragmentHeader)
    (hp : parsePacketHeader d = some h) :
    h.sequence < h.total_packets := by
  by_cases hlen : d.length < 16
  · rw [parsePacketHeader_eq_none_of_short d hlen] at hp
    exact absurd hp (by simp)
  · rw [parsePacketHeader_eq_of_long d (by omega)] at hp
    split at hp
    next h1 => exact Option.noConfusion hp
    next h1 =>
      split at hp
      next h2 => exact Option.noConfusion hp
      next h2 =>
        split at hp
        next h3 => exact Option.noConfusion hp
        next h3 =>
          injection hp with hp
          subst hp
          show List.getD d 13 0 < List.getD d 12 0
          omega

/-! ## Stream assembly lemmas -/

theorem get_data_complete_of_full (π : Type) (b : StreamBuffer)
    (hnd : (b.packets.map Prod.fst).Nodup)
    (hlt : ∀ k ∈ b.packets.map Prod.fst, k < b.total_packets)
    (hlen : b.packets.length = b.total_packets) :
    (StreamBuffer.get_data (π := π) b).complete = true ∧
    (StreamBuffer.get_data (π := π) b).missing_packets = [] := by
  have hmem : ∀ s, s < b.total_packets → (List.lookup s b.packets).isSome := by
    intro s hs
    rw [lookup_isSome_iff_mem_keys]
    have hsub : (b.packets.map Prod.fst).toFinset ⊆ Finset.range b.total_packets := by
      intro x hx
      rw [List.mem_toFinset] at hx
      exact Finset.mem_range.2 (hlt x hx)
    have hcard : (b.packets.map Prod.fst).toFinset.card = b.total_packets := by
      rw [List.toFinset_card_of_nodup hnd, List.length_map, hlen]
    have heq : (b.packets.map Prod.fst).toFinset = Finset.range b.total_packets :=
      Finset.eq_of_subset_of_card_le hsub (by rw [hcard, Finset.card_range])
    have : s ∈ (b.packets.map Prod.fst).toFinset := by
      rw [heq]
      exact Finset.mem_range.2 hs
    exact List.mem_toFinset.1 this
  have hmissing : (List.range b.total_packets).filter
      (fun seq => (List.lookup seq b.packets).isNone) = [] := by
    rw [List.filter_eq_nil_iff]
    intro s hsr
    have hs := hmem s (List.mem_range.1 hsr)
    simp only [Option.isNone_iff_eq_none]
    intro hnone
    rw [hnone] at hs
    simp at hs
  constructor
  · simp [StreamBuffer.get_data, hmissing]
  · simp [StreamBuffer.get_data, hmissing]

/-- C7 — `assemble()` (that is, `StreamBuffer.get_data`) never returns a
`data` field longer than the declared `payload_length`, in every buffer
state, missing sequences and oversized fragment payloads included:
the concatenation in ascending sequence order is truncated when longer. -/
theorem C7_assemble_length_le_declared (π : Type) (b : StreamBuffer) :
    (StreamBuffer.get_data (π := π) b).data.length ≤ b.payload_length ∧
    (StreamBuffer.get_data (π := π) b).data =
      (((List.range b.total_packets).filterMap
        (fun seq => List.lookup seq b.packets)).flatten).take b.payload_length := by
  unfold StreamBuffer.get_data
  simp only
  constructor
  · split
    · simp
    · next hgt => omega
  · split
    · rfl
    · next hgt =>
      rw [List.take_of_length_le (by omega)]

/-- C6 — the Fragment Decoder (`_parse_packet_header`) is a total function
into `Option` (no exception escapes: every raising read is caught and
becomes `none`), failing exactly when the buffer is shorter than the
16-byte header, or the little-endian `companyId` at offset 0 is not
`0xFFE5`, or the `protocolId` byte at offset 2 is not `0xAA`, or the
sequence byte at offset 13 is `≥` the total-fragments byte at offset 12;
on success every field is read at the wire-layout offsets (multi-byte
fields little-endian) and the payload is all bytes from offset 16 on. -/
theorem C6_fragment_decoder_contract (d : Bytes) :
    (parsePacketHeader d = none ↔
      (d.length < 16 ∨ d.getD 0 0 + 256 * d.getD 1 0 ≠ COMPANY_ID ∨
       d.getD 2 0 ≠ PROTOCOL_ID ∨ d.getD 12 0 ≤ d.getD 13 0)) ∧
    (∀ h : FragmentHeader, parsePacketHeader d = some h →
      h.data_type = d.getD 3 0 ∧
      h.stream_id = d.getD 10 0 + 256 * d.getD 11 0 ∧
      h.total_packets = d.getD 12 0 ∧
      h.sequence = d.getD 13 0 ∧
      h.payload_length = d.getD 14 0 + 256 * d.getD 15 0 ∧
      h.payload = d.drop 16) := by
  by_cases hlen : d.length < 16
  · have hnone := parsePacketHeader_eq_none_of_short d hlen
    refine ⟨by simp [hnone, hlen], ?_⟩
    intro h hp
    rw [hnone] at hp
    exact Option.noConfusion hp
  · rw [parsePacketHeader_eq_of_long d (by omega)]
    constructor
    · split
      next h1 => exact iff_of_true rfl (Or.inr (Or.inl h1))
      next h1 =>
        split
        next h2 => exact iff_of_true rfl (Or.inr (Or.inr (Or.inl h2)))
        next h2 =>
          split
          next h3 => exact iff_of_true rfl (Or.inr (Or.inr (Or.inr h3)))
          next h3 =>
            refine iff_of_false (by simp) ?_
            rintro (h | h | h | h)
            · exact hlen h
            · exact h (not_not.1 h1)
            · exact h (not_not.1 h2)
            · exact h3 h
    · intro h hp
      split at hp
      next => exact Option.noConfusion hp
      next =>
        split at hp
        next => exact Option.noConfusion hp
        next =>
          split at hp
          next => exact Option.noConfusion hp
          next =>
            injection hp with hp
            subst hp
            exact ⟨rfl, rfl, rfl, rfl, rfl, rfl⟩

/-- An 18-byte fragment used as concrete input for the decoder witness. -/
def fragC6 : Bytes :=
  [0xE5, 0xFF, 0xAA, 0xDD, 0, 0, 0, 0, 0, 0,
   0x01, 0x00, 0x02, 0x01, 0xA8, 0x00, 7, 9]

/-- The header `_parse_packet_header` extracts from `fragC6`. -/
def hdrC6 : FragmentHeader := ⟨0xDD, 1, 2, 1, 0xA8, [7, 9]⟩

/-- Witness for C6: the decoder succeeds on the concrete 18-byte fragment
`fragC6` and all header fields sit at the wire-layout offsets. -/
theorem C6_fragment_decoder_contract_witness :
    parsePacketHeader fragC6 = some hdrC6 ∧
    (hdrC6.data_type = fragC6.getD 3 0 ∧
     hdrC6.stream_id = fragC6.getD 10 0 + 256 * fragC6.getD 11 0 ∧
     hdrC6.total_packets = fragC6.getD 12 0 ∧
     hdrC6.sequence = fragC6.getD 13 0 ∧
     hdrC6.payload_length = fragC6.getD 14 0 + 256 * fragC6.getD 15 0 ∧
     hdrC6.payload = fragC6.drop 16) :=
  ⟨by decide, (C6_fragment_decoder_contract fragC6).2 hdrC6 (by decide)⟩

/-! ## Receiver-level claims: duplicates and the completed queue -/

/-- C5 (amended) — re-presenting a `(deviceId, streamId, sequence)` triple
whose dedup entry is present makes `process_packet` return nothing,
increment the duplicate counter by one and — beside the unconditional
received counter, which also increments — change no other state: streams,
dedup entries (including their stored timestamps: the entry is not
refreshed even though the duplicate arrives with a new timestamp),
completed queue and the remaining counters are untouched. -/
theorem C5_duplicate_dropped_and_counted (π : Type) (P : Parsers π)
    (r : Receiver π) (dev : String) (data : Bytes) (ts : Int)
    (h : FragmentHeader)
    (hp : parsePacketHeader data = some h)
    (hdup : (List.lookup (dev, h.stream_id, h.sequence) r.seen_packets).isSome) :
    (process_packet P r dev data ts).2 = none ∧
    (process_packet P r dev data ts).1.streams = r.streams ∧
    (process_packet P r dev data ts).1.seen_packets = r.seen_packets ∧
    (process_packet P r dev data ts).1.completed_streams = r.completed_streams ∧
    (process_packet P r dev data ts).1.stats.packets_received
      = r.stats.packets_received + 1 ∧
    (process_packet P r dev data ts).1.stats.packets_duplicate
      = r.stats.packets_duplicate + 1 ∧
    (process_packet P r dev data ts).1.stats.streams_completed
      = r.stats.streams_completed ∧
    (process_packet P r dev data ts).1.stats.streams_timeout
      = r.stats.streams_timeout ∧
    (process_packet P r dev data ts).1.stats.parse_errors
      = r.stats.parse_errors := by
  unfold process_packet
  rw [hp]
  unfold processParsed
  simp [bumpReceived, hdup]

/-- A valid 17-byte fragment: stream 1, total 2, sequence 0, declared
length 2, payload `[1]`. -/
def fragT2s0 : Bytes :=
  [0xE5, 0xFF, 0xAA, 0x02, 0, 0, 0, 0, 0, 0,
   0x01, 0x00, 0x02, 0x00, 0x02, 0x00, 1]

/-- An empty parser registry over a trivial parsed type. -/
def noParsers : Parsers Unit := fun _ => none

/-- A fresh receiver with the default 60-second stream timeout and
120-second dedup window. -/
def recvU : Receiver Unit := mkReceiver Unit 60 120

/-- The receiver state after accepting `fragT2s0` once at time 0. -/
def recvAfterOne : Receiver Unit :=
  (process_packet noParsers recvU "d" fragT2s0 0).1

/-- Witness for C5 (amended) at a concrete duplicate presentation. -/
theorem C5_duplicate_dropped_and_counted_witness :
    parsePacketHeader fragT2s0 = some ⟨2, 1, 2, 0, 2, [1]⟩ ∧
    (List.lookup (("d", 1, 0) : String × Nat × Nat)
      recvAfterOne.seen_packets).isSome = true ∧
    (process_packet noParsers recvAfterOne "d" fragT2s0 5).2 = none :=
  ⟨by decide, by rfl,
   (C5_duplicate_dropped_and_counted Unit noParsers recvAfterOne "d" fragT2s0 5
     ⟨2, 1, 2, 0, 2, [1]⟩ (by decide) (by rfl)).1⟩

/-- C5 counterexample — the claim says a duplicate sighting changes no
state other than the duplicate counter, but the unconditional received
counter (bumped on line 132 before the dedup check) changes too: the
second, duplicate presentation of `fragT2s0` is dropped and counted as
duplicate, yet `packets_received` moves from 1 to 2. -/
theorem C5_cex_received_counter_also_changes :
    (process_packet noParsers recvAfterOne "d" fragT2s0 5).2 = none ∧
    (process_packet noParsers recvAfterOne "d" fragT2s0 5).1.stats.packets_duplicate
      = recvAfterOne.stats.packets_duplicate + 1 ∧
    (process_packet noParsers recvAfterOne "d" fragT2s0 5).1.stats.packets_received
      ≠ recvAfterOne.stats.packets_received := by
  decide


theorem acceptParsed_completed_append {π : Type} (P : Parsers π)
    (r : Receiver π) (dev : String) (h : FragmentHeader) (ts : Int) :
    (acceptParsed P r dev h ts).1.completed_streams
      = r.completed_streams ++ ((acceptParsed P r dev h ts).2).toList := by
  simp only [acceptParsed]
  split <;> simp

theorem process_completed_append {π : Type} (P : Parsers π) (r : Receiver π)
    (dev : String) (data : Bytes) (ts : Int) :
    (process_packet P r dev data ts).1.completed_streams
      = r.completed_streams ++ ((process_packet P r dev data ts).2).toList := by
  cases hp : parsePacketHeader data
  · simp [process_packet, hp, bumpReceived]
  · next h =>
    simp only [process_packet, hp]
    unfold processParsed
    by_cases hdup : (List.lookup (dev, h.stream_id, h.sequence)
        (bumpReceived r).seen_packets).isSome = true
    · rw [if_pos hdup]
      simp [bumpReceived]
    · rw [if_neg hdup]
      exact acceptParsed_completed_append P (bumpReceived r) dev h ts

/-- C10 — every completed message `process_packet` returns is appended to
the internal completed-streams queue (and nothing is queued when it
returns nothing); `get_completed_stream` pops the queue front, oldest
first, returning nothing on an empty queue; and `get_stats` reports the
queue length as `completed_pending`. -/
theorem C10_completed_queue_fifo (π : Type) (P : Parsers π) (r : Receiver π)
    (dev : String) (data : Bytes) (ts : Int) :
    (process_packet P r dev data ts).1.completed_streams
      = r.completed_streams ++ ((process_packet P r dev data ts).2).toList ∧
    (get_completed_stream r).2 = r.completed_streams.head? ∧
    (get_completed_stream r).1.completed_streams = r.completed_streams.tail ∧
    (get_stats r).completed_pending = r.completed_streams.length := by
  refine ⟨process_completed_append P r dev data ts, ?_, ?_, rfl⟩
  · cases hc : r.completed_streams <;> simp [get_completed_stream, hc]
  · cases hc : r.completed_streams <;> simp [get_completed_stream, hc]

/-! ## Decode failures and the completion flag -/

theorem runParser_preserves {π : Type} (P : Parsers π) (dt : Nat)
    (cd : CompletedMessage π) (pe : Nat) :
    (runParser P dt cd pe).1.complete = cd.complete ∧
    (runParser P dt cd pe).1.missing_packets = cd.missing_packets ∧
    (runParser P dt cd pe).1.data = cd.data ∧
    (runParser P dt cd pe).1.packets_received = cd.packets_received := by
  unfold runParser
  split
  · simp
  · split <;> simp

theorem acceptParsed_parser_error {π : Type} (P : Parsers π) (r : Receiver π)
    (dev : String) (h : FragmentHeader) (ts : Int)
    (f : Bytes → Except String π) (e : String) (m : CompletedMessage π)
    (hP : P h.data_type = some f)
    (hm : (acceptParsed P r dev h ts).2 = some m)
    (hf : f m.data = Except.error e) :
    m.parsed = none ∧
    (acceptParsed P r dev h ts).1.stats.parse_errors
      = r.stats.parse_errors + 1 ∧
    (acceptParsed P r dev h ts).1.completed_streams
      = r.completed_streams ++ [m] := by
  simp only [acceptParsed] at hm ⊢
  split at hm
  · next hcomp =>
    rw [if_pos hcomp]
    simp only [Option.some.injEq] at hm
    simp only [runParser, hP] at hm ⊢
    split at hm
    · next p heq =>
      rw [← hm] at hf
      simp only at hf
      rw [heq] at hf
      exact absurd hf (by simp)
    · next a heq =>
      simp only [heq]
      refine ⟨?_, by simp, by simp [← hm]⟩
      rw [← hm]
      simp [StreamBuffer.get_data]
  · next hcomp =>
    exact absurd hm (by simp)

/-- C8 — when a stream completes and the registered decoder for its type
raises on the reassembled bytes, `process_packet` still returns the
completed message (with the optional `parsed` field left unset) and the
parse-error counter is incremented by one, the message also being queued
as usual. -/
theorem C8_decode_failure_nonfatal (π : Type) (P : Parsers π) (r : Receiver π)
    (dev : String) (data : Bytes) (ts : Int) (h : FragmentHeader)
    (f : Bytes → Except String π) (e : String) (m : CompletedMessage π)
    (hp : parsePacketHeader data = some h)
    (hP : P h.data_type = some f)
    (hm : (process_packet P r dev data ts).2 = some m)
    (hf : f m.data = Except.error e) :
    m.parsed = none ∧
    (process_packet P r dev data ts).1.stats.parse_errors
      = r.stats.parse_errors + 1 ∧
    (process_packet P r dev data ts).1.completed_streams
      = r.completed_streams ++ [m] := by
  simp only [process_packet, hp] at hm ⊢
  unfold processParsed at hm ⊢
  by_cases hdup : (List.lookup (dev, h.stream_id, h.sequence)
      (bumpReceived r).seen_packets).isSome = true
  · rw [if_pos hdup] at hm
    exact absurd hm (by simp)
  · rw [if_neg hdup] at hm ⊢
    exact acceptParsed_parser_error P (bumpReceived r) dev h ts f e m hP hm hf

/-- The registry of the example: `parse_captouch_data` under tag `0xDD`. -/
def captouchParsers : Parsers CaptouchResult :=
  fun dt => if dt = 0xDD then some parse_captouch_data else none

/-- A single-fragment captouch stream carrying only 100 payload bytes
(168 expected by the decoder). -/
def fragC8 : Bytes :=
  [0xE5, 0xFF, 0xAA, 0xDD, 0, 0, 0, 0, 0, 0,
   0x01, 0x00, 0x01, 0x00, 100, 0] ++ List.replicate 100 0

/-- A fresh receiver delivering captouch decode results. -/
def recvCT : Receiver CaptouchResult := mkReceiver CaptouchResult 60 120

/-- The completed message produced for `fragC8`. -/
def msgC8 : CompletedMessage CaptouchResult :=
  ⟨"d", 1, 0xDD, 0, List.replicate 100 0, 100, 100, 1, 1, true, [], none⟩

/-- Witness for C8: a 100-byte reassembled captouch payload makes the
registered decoder raise, yet the completed message is still delivered,
`parsed` unset, and the decode-error counter moves 0 → 1. -/
theorem C8_decode_failure_nonfatal_witness :
    parsePacketHeader fragC8 = some ⟨0xDD, 1, 1, 0, 100, List.replicate 100 0⟩ ∧
    captouchParsers 0xDD = some parse_captouch_data ∧
    (process_packet captouchParsers recvCT "d" fragC8 0).2 = some msgC8 ∧
    parse_captouch_data msgC8.data
      = Except.error "Incomplete captouch data: 100/168 bytes" ∧
    msgC8.parsed = none ∧
    (process_packet captouchParsers recvCT "d" fragC8 0).1.stats.parse_errors
      = recvCT.stats.parse_errors + 1 :=
  ⟨by rfl, by rfl, by rfl, by rfl,
   (C8_decode_failure_nonfatal CaptouchResult captouchParsers recvCT "d"
      fragC8 0 ⟨0xDD, 1, 1, 0, 100, List.replicate 100 0⟩ parse_captouch_data
      "Incomplete captouch data: 100/168 bytes" msgC8
      (by rfl) (by rfl) (by rfl) (by rfl)).1,
   (C8_decode_failure_nonfatal CaptouchResult captouchParsers recvCT "d"
      fragC8 0 ⟨0xDD, 1, 1, 0, 100, List.replicate 100 0⟩ parse_captouch_data
      "Incomplete captouch data: 100/168 bytes" msgC8
      (by rfl) (by rfl) (by rfl) (by rfl)).2.1⟩

theorem add_packet_keys_good (b : StreamBuffer) (seq : Nat) (pl : Bytes)
    (hnd : (b.packets.map Prod.fst).Nodup)
    (hlt : ∀ k ∈ b.packets.map Prod.fst, k < b.total_packets)
    (hseq : seq < b.total_packets) :
    ((b.add_packet seq pl).packets.map Prod.fst).Nodup ∧
    (∀ k ∈ (b.add_packet seq pl).packets.map Prod.fst,
      k < (b.add_packet seq pl).total_packets) := by
  unfold StreamBuffer.add_packet
  simp only
  rw [keys_updAssoc]
  split
  · exact ⟨hnd, hlt⟩
  · next habs =>
    have hnotmem : seq ∉ b.packets.map Prod.fst := by
      rw [← lookup_isSome_iff_mem_keys]
      simpa using habs
    constructor
    · simp [List.nodup_append, hnd, hnotmem]
    · intro k hk
      rcases List.mem_append.1 hk with hk1 | hk2
      · exact hlt k hk1
      · rw [List.mem_singleton.1 hk2]
        exact hseq

theorem streamFor_good (streams : List ((String × Nat) × StreamBuffer))
    (dev : String) (h : FragmentHeader) (ts : Int)
    (hcons : ∀ b, List.lookup (dev, h.stream_id) streams = some b →
      (b.packets.map Prod.fst).Nodup ∧
      (∀ k ∈ b.packets.map Prod.fst, k < b.total_packets) ∧
      b.total_packets = h.total_packets) :
    ((streamFor streams dev h ts).packets.map Prod.fst).Nodup ∧
    (∀ k ∈ (streamFor streams dev h ts).packets.map Prod.fst,
      k < (streamFor streams dev h ts).total_packets) ∧
    (streamFor streams dev h ts).total_packets = h.total_packets := by
  unfold streamFor
  split
  · next b hb => exact hcons b hb
  · simp [freshBuffer]

theorem acceptParsed_complete_flag {π : Type} (P : Parsers π) (r : Receiver π)
    (dev : String) (h : FragmentHeader) (ts : Int) (m : CompletedMessage π)
    (hseq : h.sequence < h.total_packets)
    (hcons : ∀ b, List.lookup (dev, h.stream_id) r.streams = some b →
      (b.packets.map Prod.fst).Nodup ∧
      (∀ k ∈ b.packets.map Prod.fst, k < b.total_packets) ∧
      b.total_packets = h.total_packets)
    (hm : (acceptParsed P r dev h ts).2 = some m) :
    m.complete = true ∧ m.missing_packets = [] := by
  simp only [acceptParsed] at hm
  split at hm
  · next hcomp =>
    simp only [Option.some.injEq] at hm
    have hsf := streamFor_good r.streams dev h ts hcons
    set s0 := streamFor r.streams dev h ts with hs0
    have hgood := add_packet_keys_good s0 h.sequence h.payload hsf.1 hsf.2.1
      (by rw [hsf.2.2]; exact hseq)
    have hlen : (s0.add_packet h.sequence h.payload).packets.length
        = (s0.add_packet h.sequence h.payload).total_packets := by
      have hb := hcomp
      unfold StreamBuffer.is_complete at hb
      simpa using hb
    have hcm := get_data_complete_of_full π (s0.add_packet h.sequence h.payload)
      hgood.1 hgood.2 hlen
    have hpres := runParser_preserves P h.data_type
      (StreamBuffer.get_data (s0.add_packet h.sequence h.payload))
      r.stats.parse_errors
    rw [← hm]
    exact ⟨hpres.1.trans hcm.1, hpres.2.1.trans hcm.2⟩
  · next hcomp =>
    exact absurd hm (by simp)

/-- C1 (amended) — every `CompletedMessage` delivered by the normal
completion path of `process_packet` has `complete = true` and an empty
`missing_packets` list, provided the accepted fragments of the stream
carry consistent headers: the buffered sequences are distinct and below
the stream's `total_packets`, and the incoming fragment's
`total_packets` agrees with the stream's.  (Without that consistency
requirement the claim fails, see the counterexample: a later fragment's
sequence is validated against its own header's total, not the stream's.) -/
theorem C1_completion_complete_and_no_missing (π : Type) (P : Parsers π)
    (r : Receiver π) (dev : String) (data : Bytes) (ts : Int)
    (h : FragmentHeader) (m : CompletedMessage π)
    (hp : parsePacketHeader data = some h)
    (hcons : ∀ b, List.lookup (dev, h.stream_id) r.streams = some b →
      (b.packets.map Prod.fst).Nodup ∧
      (∀ k ∈ b.packets.map Prod.fst, k < b.total_packets) ∧
      b.total_packets = h.total_packets)
    (hm : (process_packet P r dev data ts).2 = some m) :
    m.complete = true ∧ m.missing_packets = [] := by
  simp only [process_packet, hp] at hm
  unfold processParsed at hm
  by_cases hdup : (List.lookup (dev, h.stream_id, h.sequence)
      (bumpReceived r).seen_packets).isSome = true
  · rw [if_pos hdup] at hm
    exact absurd hm (by simp)
  · rw [if_neg hdup] at hm
    exact acceptParsed_complete_flag P (bumpReceived r) dev h ts m
      (sequence_lt_total_of_parse data h hp) hcons hm

/-- A fragment of the same stream as `fragT2s0` but with an inconsistent
header: `total_packets = 5`, `sequence = 4`. -/
def fragT5s4 : Bytes :=
  [0xE5, 0xFF, 0xAA, 0x02, 0, 0, 0, 0, 0, 0,
   0x01, 0x00, 0x05, 0x04, 0x02, 0x00, 2]

/-- C1 counterexample — without the consistency amendment the claim is
false on the code: after `fragT2s0` (total 2, seq 0) seeds the stream,
`fragT5s4` (total 5, seq 4, same stream id) passes header validation
(4 < 5), is added to the buffer whose `total_packets` is 2, makes
`len(packets) == 2` hold, and the normal completion path delivers a
message with `complete = false` and `missing_packets = [1]`. -/
theorem C1_cex_inconsistent_headers_deliver_incomplete :
    ((process_packet noParsers recvAfterOne "d" fragT5s4 0).2.map
      (fun m => (m.complete, m.missing_packets))) = some (false, [1]) := by
  rfl

/-- A single-fragment stream: stream 3, total 1, sequence 0, payload `[9]`. -/
def fragT1s0 : Bytes :=
  [0xE5, 0xFF, 0xAA, 0x02, 0, 0, 0, 0, 0, 0,
   0x03, 0x00, 0x01, 0x00, 0x01, 0x00, 9]

/-- The completed message produced for `fragT1s0` on a fresh receiver. -/
def msgC1w : CompletedMessage Unit :=
  ⟨"d", 3, 2, 0, [9], 1, 1, 1, 1, true, [], none⟩

/-- Witness for C1 (amended) at a concrete consistent single-fragment
stream: the delivered message has `complete = true`, no missing
sequences. -/
theorem C1_completion_complete_and_no_missing_witness :
    parsePacketHeader fragT1s0 = some ⟨2, 3, 1, 0, 1, [9]⟩ ∧
    (process_packet noParsers recvU "d" fragT1s0 0).2 = some msgC1w ∧
    msgC1w.complete = true ∧ msgC1w.missing_packets = [] :=
  ⟨by decide, by rfl,
   (C1_completion_complete_and_no_missing Unit noParsers recvU "d" fragT1s0 0
      ⟨2, 3, 1, 0, 1, [9]⟩ msgC1w (by decide)
      (fun b hb => Option.noConfusion hb) (by rfl)).1,
   (C1_completion_complete_and_no_missing Unit noParsers recvU "d" fragT1s0 0
      ⟨2, 3, 1, 0, 1, [9]⟩ msgC1w (by decide)
      (fun b hb => Option.noConfusion hb) (by rfl)).2⟩

/-! ## Garbage collection -/

theorem count_le_one_of_nodup {α : Type} [BEq α] [LawfulBEq α]
    (l : List α) (hnd : l.Nodup) (a : α) : l.count a ≤ 1 := by
  induction l with
  | nil => simp
  | cons x l ih =>
    rcases List.nodup_cons.1 hnd with ⟨hx, hl⟩
    rw [List.count_cons]
    by_cases hax : a = x
    · subst hax
      have hz : l.count a = 0 := List.count_eq_zero.2 hx
      simp [hz]
    · have hxa : (x == a) = false := by
        simpa using Ne.symm hax
      simp [hxa, ih hl]


/-- C9 — a stream holding fewer than `total_packets` unique fragments,
once the clock has advanced past the stream timeout and `cleanup` runs,
is removed from the active-stream table; the timeout counter is
incremented by the number of expired streams, among which this stream is
counted exactly once (and, being removed, it can never be counted
again); `cleanup` never touches the completed-message queue, so no
`CompletedMessage` is produced for the stream. -/
theorem C9_stream_timeout_eviction (π : Type) (r : Receiver π) (now : Int)
    (k : String × Nat) (b : StreamBuffer)
    (hnd : (r.streams.map Prod.fst).Nodup)
    (hb : List.lookup k r.streams = some b)
    (_hinc : b.packets.length < b.total_packets)
    (hexp : now - b.first_packet_time > r.stream_timeout) :
    List.lookup k (cleanup r now).streams = none ∧
    (cleanup r now).stats.streams_timeout
      = r.stats.streams_timeout
        + (r.streams.filter
            (fun p => decide (now - p.2.first_packet_time > r.stream_timeout))).length ∧
    ((r.streams.filter
        (fun p => decide (now - p.2.first_packet_time > r.stream_timeout))).map
        Prod.fst).count k = 1 ∧
    ((cleanup r now).streams.map Prod.fst).count k = 0 ∧
    (cleanup r now).completed_streams = r.completed_streams := by
  have hkmem : (k, b) ∈ r.streams := by
    rcases List.lookup_eq_some_iff.1 hb with ⟨l₁, l₂, hsplit, _⟩
    rw [hsplit]
    exact List.mem_append.2 (Or.inr (List.mem_cons_self _ _))
  have hnotkept : k ∉ ((cleanup r now).streams.map Prod.fst) := by
    intro hk
    rcases List.mem_map.1 hk with ⟨p, hp, hfst⟩
    have hpmem : p ∈ r.streams := List.mem_of_mem_filter hp
    have hkeep := List.of_mem_filter hp
    have hpkb : p = (k, b) :=
      mem_eq_of_lookup_nodup r.streams hnd k b hb p hpmem hfst
    rw [hpkb] at hkeep
    simp at hkeep
    omega
  refine ⟨?_, rfl, ?_, List.count_eq_zero.2 hnotkept, rfl⟩
  · exact (lookup_eq_none_iff_not_mem_keys _ k).2 hnotkept
  · have hin : (k, b) ∈ r.streams.filter
        (fun p => decide (now - p.2.first_packet_time > r.stream_timeout)) :=
      List.mem_filter.2 ⟨hkmem, by simpa using hexp⟩
    have hge : 0 < (((r.streams.filter
        (fun p => decide (now - p.2.first_packet_time > r.stream_timeout))).map
        Prod.fst).count k) :=
      List.count_pos_iff.2 (List.mem_map.2 ⟨(k, b), hin, rfl⟩)
    have hsub : List.Sublist
        ((r.streams.filter
          (fun p => decide (now - p.2.first_packet_time > r.stream_timeout))).map
            Prod.fst)
        (r.streams.map Prod.fst) :=
      List.Sublist.map Prod.fst (List.filter_sublist r.streams)
    have hle := hsub.count_le k
    have hle1 := count_le_one_of_nodup (r.streams.map Prod.fst) hnd k
    omega

/-- The (incomplete, 1-of-2 fragments) stream buffer sitting in
`recvAfterOne`. -/
def bufW : StreamBuffer := ⟨"d", 1, 2, 2, 2, 0, [(0, [1])]⟩

/-- Witness for C9 at `recvAfterOne` (one incomplete stream started at
time 0), garbage collected at time 61 with a 60-second timeout. -/
theorem C9_stream_timeout_eviction_witness :
    List.lookup (("d", 1) : String × Nat) recvAfterOne.streams = some bufW ∧
    bufW.packets.length < bufW.total_packets ∧
    ((61 : Int) - bufW.first_packet_time > recvAfterOne.stream_timeout) ∧
    List.lookup (("d", 1) : String × Nat) (cleanup recvAfterOne 61).streams
      = none ∧
    (cleanup recvAfterOne 61).stats.streams_timeout
      = recvAfterOne.stats.streams_timeout + 1 ∧
    (cleanup recvAfterOne 61).completed_streams
      = recvAfterOne.completed_streams :=
  ⟨by rfl, by decide, by decide,
   (C9_stream_timeout_eviction Unit recvAfterOne 61 ("d", 1) bufW
      (by rw [show recvAfterOne.streams.map Prod.fst = [("d", 1)] from rfl]
          exact List.nodup_singleton _)
      (by rfl) (by decide) (by decide)).1,
   by rfl, by rfl⟩

/-! ## The example captouch decoder -/

/-- C2 (amended) — `parse_captouch_data` fails with the explicit
"incomplete" error exactly when its input is shorter than 168 bytes (not
when it differs from 168: longer inputs succeed, using the first 84
samples — see the counterexample); on success it interprets the bytes
as 84 big-endian signed 16-bit samples, splits them into the four named
sub-ranges of 8, 8, 34 and 34 samples, and computes the means of the
first two sub-ranges and their difference as the derived range metric. -/
theorem C2_captouch_decoder_contract (data : Bytes) :
    ((∃ e, parse_captouch_data data = Except.error e) ↔ data.length < 168) ∧
    (data.length < 168 →
      parse_captouch_data data = Except.error
        ("Incomplete captouch data: " ++ toString data.length
          ++ "/168 bytes")) ∧
    (168 ≤ data.length →
      parse_captouch_data data = Except.ok
        { total_samples := 84
          vdd_ref := (captouchSamples data).take 8
          gnd_ref := ((captouchSamples data).drop 8).take 8
          self_cap_raw := ((captouchSamples data).drop 16).take 34
          mutual_cap_raw := ((captouchSamples data).drop 50).take 34
          vdd_avg := (((captouchSamples data).take 8).sum : ℚ) / 8
          gnd_avg := ((((captouchSamples data).drop 8).take 8).sum : ℚ) / 8
          adc_range := (((captouchSamples data).take 8).sum : ℚ) / 8
            - ((((captouchSamples data).drop 8).take 8).sum : ℚ) / 8 }) ∧
    ((captouchSamples data).length = 84 ∧
      ((captouchSamples data).take 8).length = 8 ∧
      (((captouchSamples data).drop 8).take 8).length = 8 ∧
      (((captouchSamples data).drop 16).take 34).length = 34 ∧
      (((captouchSamples data).drop 50).take 34).length = 34) := by
  have hslen : (captouchSamples data).length = 84 := by
    simp [captouchSamples]
  have h8 : ((captouchSamples data).take 8).length = 8 := by
    rw [List.length_take, hslen]
    omega
  have h8b : (((captouchSamples data).drop 8).take 8).length = 8 := by
    rw [List.length_take, List.length_drop, hslen]
    omega
  have h34 : (((captouchSamples data).drop 16).take 34).length = 34 := by
    rw [List.length_take, List.length_drop, hslen]
    omega
  have h34b : (((captouchSamples data).drop 50).take 34).length = 34 := by
    rw [List.length_take, List.length_drop, hslen]
    omega
  refine ⟨⟨?_, ?_⟩, ?_, ?_, hslen, h8, h8b, h34, h34b⟩
  · rintro ⟨e, he⟩
    by_contra hlen
    unfold parse_captouch_data at he
    rw [if_neg hlen] at he
    exact Except.noConfusion he
  · intro hlen
    exact ⟨_, by unfold parse_captouch_data; rw [if_pos hlen]⟩
  · intro hlen
    unfold parse_captouch_data
    rw [if_pos hlen]
  · intro hlen
    unfold parse_captouch_data
    rw [if_neg (by omega)]
    simp only [Except.ok.injEq]
    have hc8 : (((captouchSamples data).take 8).length : ℚ) = 8 := by
      rw [h8]; norm_num
    have hc8b : ((((captouchSamples data).drop 8).take 8).length : ℚ) = 8 := by
      rw [h8b]; norm_num
    rw [hslen, hc8, hc8b]

set_option maxRecDepth 10000 in
/-- C2 counterexample — the claim says the decoder fails exactly when the
input is not exactly 168 bytes, but the code only checks
`len(data) < 168`: a 169-byte input (length ≠ 168) decodes successfully. -/
theorem C2_cex_169_byte_input_succeeds :
    (List.replicate 169 0).length ≠ 168 ∧
    (parse_captouch_data (List.replicate 169 0)).toOption.isSome = true := by
  constructor
  · simp
  · rfl

set_option maxRecDepth 10000 in
/-- Witness for C2 (amended): a 100-byte all-zero input fails with the
explicit incomplete-payload error, and a 168-byte all-zero input
succeeds with the four named sub-ranges and derived range metric. -/
theorem C2_captouch_decoder_contract_witness :
    ((List.replicate 100 0).length < 168 ∧
      parse_captouch_data (List.replicate 100 0)
        = Except.error "Incomplete captouch data: 100/168 bytes") ∧
    (168 ≤ (List.replicate 168 0).length ∧
      parse_captouch_data (List.replicate 168 0) = Except.ok
        { total_samples := 84
          vdd_ref := (captouchSamples (List.replicate 168 0)).take 8
          gnd_ref := ((captouchSamples (List.replicate 168 0)).drop 8).take 8
          self_cap_raw :=
            ((captouchSamples (List.replicate 168 0)).drop 16).take 34
          mutual_cap_raw :=
            ((captouchSamples (List.replicate 168 0)).drop 50).take 34
          vdd_avg :=
            (((captouchSamples (List.replicate 168 0)).take 8).sum : ℚ) / 8
          gnd_avg :=
            ((((captouchSamples (List.replicate 168 0)).drop 8).take 8).sum : ℚ)
              / 8
          adc_range :=
            (((captouchSamples (List.replicate 168 0)).take 8).sum : ℚ) / 8
              - ((((captouchSamples (List.replicate 168 0)).drop 8).take
                  8).sum : ℚ) / 8 }) :=
  ⟨⟨by simp,
    by
      have hc := (C2_captouch_decoder_contract (List.replicate 100 0)).2.1
        (by simp)
      exact hc⟩,
   by simp,
   (C2_captouch_decoder_contract (List.replicate 168 0)).2.2.1 (by simp)⟩

/-! ## Runs of `process_packet`: retransmission statistics and
order-independence -/

/-- Feeding a list of (fragment bytes, timestamp) pairs to
`process_packet` one at a time, collecting every completed message in
arrival order. -/
def runList {π : Type} (P : Parsers π) (dev : String) :
    Receiver π → List (Bytes × Int) →
    Receiver π × List (CompletedMessage π)
  | r, [] => (r, [])
  | r, q :: rest =>
    let step := process_packet P r dev q.1 q.2
    let next := runList P dev step.1 rest
    (next.1, step.2.toList ++ next.2)

/-- First occurrences of a list's elements, in order of first arrival
(the key order of a Python dict fed those elements). -/
def firstsAux (acc : List Nat) : List Nat → List Nat
  | [] => acc
  | i :: rest => firstsAux (if i ∈ acc then acc else acc ++ [i]) rest

/-- `firsts l` is `l` with later duplicates dropped. -/
def firsts (l : List Nat) : List Nat := firstsAux [] l

theorem firstsAux_snoc (acc l : List Nat) (i : Nat) :
    firstsAux acc (l ++ [i])
      = (if i ∈ firstsAux acc l then firstsAux acc l
         else firstsAux acc l ++ [i]) := by
  induction l generalizing acc with
  | nil => rfl
  | cons j l ih =>
    simp only [List.cons_append, firstsAux]
    exact ih _

theorem mem_firstsAux (acc l : List Nat) (x : Nat) :
    x ∈ firstsAux acc l ↔ x ∈ acc ∨ x ∈ l := by
  induction l generalizing acc with
  | nil => simp [firstsAux]
  | cons j l ih =>
    simp only [firstsAux]
    rw [ih]
    by_cases hj : j ∈ acc
    · simp only [hj, if_true]
      constructor
      · rintro (h | h)
        · exact Or.inl h
        · exact Or.inr (List.mem_cons.2 (Or.inr h))
      · rintro (h | h)
        · exact Or.inl h
        · rcases List.mem_cons.1 h with rfl | h
          · exact Or.inl hj
          · exact Or.inr h
    · simp only [hj, if_false]
      constructor
      · rintro (h | h)
        · rcases List.mem_append.1 h with h | h
          · exact Or.inl h
          · exact Or.inr (List.mem_cons.2 (Or.inl (List.mem_singleton.1 h)))
        · exact Or.inr (List.mem_cons.2 (Or.inr h))
      · rintro (h | h)
        · exact Or.inl (List.mem_append.2 (Or.inl h))
        · rcases List.mem_cons.1 h with rfl | h
          · exact Or.inl (List.mem_append.2 (Or.inr (List.mem_singleton.2 rfl)))
          · exact Or.inr h

theorem nodup_firstsAux (acc l : List Nat) (h : acc.Nodup) :
    (firstsAux acc l).Nodup := by
  induction l generalizing acc with
  | nil => exact h
  | cons j l ih =>
    simp only [firstsAux]
    by_cases hj : j ∈ acc
    · simp only [hj, if_true]
      exact ih _ h
    · simp only [hj, if_false]
      exact ih _ (by simp [List.nodup_append, h, hj])

theorem mem_firsts (l : List Nat) (x : Nat) : x ∈ firsts l ↔ x ∈ l := by
  unfold firsts
  rw [mem_firstsAux]
  simp

theorem nodup_firsts (l : List Nat) : (firsts l).Nodup :=
  nodup_firstsAux [] l List.nodup_nil

theorem firsts_snoc (l : List Nat) (i : Nat) :
    firsts (l ++ [i])
      = (if i ∈ firsts l then firsts l else firsts l ++ [i]) :=
  firstsAux_snoc [] l i

theorem firstsAux_eq_append (acc l : List Nat) (hl : l.Nodup)
    (hdisj : ∀ x ∈ l, x ∉ acc) :
    firstsAux acc l = acc ++ l := by
  induction l generalizing acc with
  | nil => simp [firstsAux]
  | cons j l ih =>
    simp only [firstsAux]
    rcases List.nodup_cons.1 hl with ⟨hj, hl'⟩
    rw [if_neg (hdisj j (List.mem_cons_self _ _))]
    rw [ih _ hl']
    · simp
    · intro x hx
      simp only [List.mem_append, List.mem_singleton]
      rintro (hx2 | rfl)
      · exact hdisj x (List.mem_cons.2 (Or.inr hx)) hx2
      · exact hj hx

theorem firsts_of_nodup (l : List Nat) (h : l.Nodup) : firsts l = l := by
  unfold firsts
  rw [firstsAux_eq_append [] l h (by simp)]
  simp

theorem length_lt_of_nodup_missing (l : List Nat) (F i : Nat)
    (hnd : l.Nodup) (hbound : ∀ x ∈ l, x < F) (hi : i < F) (hmem : i ∉ l) :
    l.length < F := by
  have hsub : l.toFinset ⊆ Finset.range F := by
    intro x hx
    exact Finset.mem_range.2 (hbound x (List.mem_toFinset.1 hx))
  have hss : l.toFinset ⊂ Finset.range F := by
    refine Finset.ssubset_iff_of_subset hsub |>.2 ⟨i, Finset.mem_range.2 hi, ?_⟩
    intro hmem2
    exact hmem (List.mem_toFinset.1 hmem2)
  have := Finset.card_lt_card hss
  rw [List.toFinset_card_of_nodup hnd, Finset.card_range] at this
  exact this

theorem mem_map_key (dev : String) (sid i : Nat) (f : List Nat) :
    ((dev, sid, i) ∈ f.map (fun j => ((dev, sid, j) : String × Nat × Nat)))
      ↔ i ∈ f := by
  constructor
  · intro hk
    rcases List.mem_map.1 hk with ⟨j, hj, hje⟩
    have : j = i := by
      have := congrArg (fun p => p.2.2) hje
      simpa using this
    rw [← this]
    exact hj
  · intro hi
    exact List.mem_map.2 ⟨i, hi, rfl⟩

theorem lookup_map_pl (pl : Nat → Bytes) (f : List Nat) (i : Nat) :
    List.lookup i (f.map (fun j => (j, pl j)))
      = (if i ∈ f then some (pl i) else none) := by
  induction f with
  | nil => simp
  | cons j f ih =>
    simp only [List.map_cons, List.lookup_cons]
    by_cases hij : i = j
    · subst hij
      simp
    · have : (i == j) = false := by simpa using hij
      rw [this]
      simp only [ih]
      by_cases hmem : i ∈ f
      · simp [hmem, List.mem_cons, hij]
      · simp [hmem, List.mem_cons, hij]

/-- The stream buffer holding the payloads of the fragment indices `f`,
in that arrival order. -/
def mkBuf (dev : String) (sid dt F plen : Nat) (ts : Int)
    (pl : Nat → Bytes) (f : List Nat) : StreamBuffer :=
  ⟨dev, sid, dt, F, plen, ts, f.map (fun i => (i, pl i))⟩

/-- Invariant of the retransmission run: after feeding the fragment
indices `processed` (in that order, each wrapped in a well-formed
fragment of one fixed stream), the receiver's counters, dedup keys,
stream table and the collected outputs are determined by `processed`
and its first-occurrence subsequence. -/
def RunInv {π : Type} (dev : String) (sid dt F plen : Nat)
    (pl : Nat → Bytes) (processed : List Nat) (r : Receiver π)
    (out : List (CompletedMessage π)) : Prop :=
  r.stats.packets_received = processed.length ∧
  r.stats.packets_duplicate + (firsts processed).length = processed.length ∧
  r.seen_packets.map Prod.fst
    = (firsts processed).map (fun i => (dev, sid, i)) ∧
  (firsts processed = [] → r.streams = []) ∧
  (firsts processed ≠ [] → (firsts processed).length < F →
    ∃ t0, r.streams
      = [((dev, sid), mkBuf dev sid dt F plen t0 pl (firsts processed))]) ∧
  out.map (fun m => (m.data, m.packets_received))
    = (if (firsts processed).length = F
       then [(((mkBuf dev sid dt F plen 0 pl
                (firsts processed)).get_data (π := Unit)).data, F)]
       else [])
theorem mkBuf_add_packet (dev : String) (sid dt F plen : Nat) (tX : Int)
    (pl : Nat → Bytes) (f : List Nat) (i : Nat) (hmem : i ∉ f) :
    (mkBuf dev sid dt F plen tX pl f).add_packet i (pl i)
      = mkBuf dev sid dt F plen tX pl (f ++ [i]) := by
  unfold mkBuf StreamBuffer.add_packet
  simp only
  rw [updAssoc_of_lookup_none]
  · simp
  · rw [lookup_map_pl]
    simp [hmem]

theorem mkBuf_is_complete (dev : String) (sid dt F plen : Nat) (tX : Int)
    (pl : Nat → Bytes) (g : List Nat) :
    (mkBuf dev sid dt F plen tX pl g).is_complete = (g.length == F) := by
  simp [mkBuf, StreamBuffer.is_complete]

theorem mkBuf_get_data_pr {π : Type} (dev : String) (sid dt F plen : Nat)
    (tX : Int) (pl : Nat → Bytes) (g : List Nat) :
    (StreamBuffer.get_data (π := π) (mkBuf dev sid dt F plen tX pl g)).packets_received
      = g.length := by
  simp [mkBuf, StreamBuffer.get_data]

theorem mkBuf_get_data_data {π : Type} (dev : String) (sid dt F plen : Nat)
    (tX : Int) (pl : Nat → Bytes) (g : List Nat) :
    (StreamBuffer.get_data (π := π) (mkBuf dev sid dt F plen tX pl g)).data
      = (StreamBuffer.get_data (π := Unit)
          (mkBuf dev sid dt F plen 0 pl g)).data := rfl

theorem RunInv_step {π : Type} (P : Parsers π) (dev : String)
    (sid dt F plen : Nat) (pl : Nat → Bytes)
    (processed : List Nat) (r : Receiver π) (out : List (CompletedMessage π))
    (data : Bytes) (i : Nat) (t : Int)
    (hparse : parsePacketHeader data = some ⟨dt, sid, F, i, plen, pl i⟩)
    (hi : i < F)
    (hall : ∀ x ∈ processed, x < F)
    (hInv : RunInv dev sid dt F plen pl processed r out) :
    RunInv dev sid dt F plen pl (processed ++ [i])
      (process_packet P r dev data t).1
      (out ++ (process_packet P r dev data t).2.toList) := by
  obtain ⟨hrec, hdupc, hseen, hstrnil, hstr, hout⟩ := hInv
  have hkeyiff : ((List.lookup ((dev, sid, i) : String × Nat × Nat)
      r.seen_packets).isSome = true) ↔ i ∈ firsts processed := by
    rw [lookup_isSome_iff_mem_keys, hseen, mem_map_key]
  simp only [process_packet, hparse, processParsed, bumpReceived]
  by_cases hmem : i ∈ firsts processed
  · rw [if_pos (hkeyiff.2 hmem)]
    have hf : firsts (processed ++ [i]) = firsts processed := by
      rw [firsts_snoc, if_pos hmem]
    unfold RunInv
    rw [hf]
    refine ⟨?_, ?_, hseen, hstrnil, hstr, by simpa using hout⟩
    · show r.stats.packets_received + 1 = (processed ++ [i]).length
      rw [List.length_append, hrec]
      rfl
    · show r.stats.packets_duplicate + 1 + (firsts processed).length
        = (processed ++ [i]).length
      simp only [List.length_append, List.length_singleton]
      omega
  · rw [if_neg (fun hc => hmem (hkeyiff.1 hc))]
    have hf : firsts (processed ++ [i]) = firsts processed ++ [i] := by
      rw [firsts_snoc, if_neg hmem]
    have hflt : (firsts processed).length < F :=
      length_lt_of_nodup_missing _ F i (nodup_firsts _)
        (fun x hx => hall x ((mem_firsts _ _).1 hx)) hi hmem
    have hlkup : List.lookup ((dev, sid, i) : String × Nat × Nat)
        r.seen_packets = none :=
      Option.not_isSome_iff_eq_none.1 (fun hc => hmem (hkeyiff.1 hc))
    simp only [acceptParsed]
    rw [updAssoc_of_lookup_none _ _ _ hlkup]
    obtain ⟨tX, hsf⟩ : ∃ tX,
        streamFor r.streams dev ⟨dt, sid, F, i, plen, pl i⟩ t
          = mkBuf dev sid dt F plen tX pl (firsts processed) := by
      rcases em (firsts processed = []) with hfe | hfe
      · refine ⟨t, ?_⟩
        rw [hfe]
        unfold streamFor
        rw [hstrnil hfe]
        simp [freshBuffer, mkBuf]
      · obtain ⟨t0, hst⟩ := hstr hfe hflt
        refine ⟨t0, ?_⟩
        unfold streamFor
        rw [hst]
        simp
    rw [hsf, mkBuf_add_packet dev sid dt F plen tX pl _ i hmem]
    rw [mkBuf_is_complete]
    by_cases hcFull : (firsts processed ++ [i]).length = F
    · rw [if_pos (by simp [hcFull])]
      unfold RunInv
      rw [hf]
      refine ⟨?_, ?_, ?_, ?_, ?_, ?_⟩
      · show r.stats.packets_received + 1 = (processed ++ [i]).length
        simp only [List.length_append, List.length_singleton]
        omega
      · show r.stats.packets_duplicate + (firsts processed ++ [i]).length
          = (processed ++ [i]).length
        simp only [List.length_append, List.length_singleton] at hcFull ⊢
        omega
      · show (r.seen_packets ++ [((dev, sid, i), t)]).map Prod.fst
          = (firsts processed ++ [i]).map (fun j => ((dev, sid, j) : String × Nat × Nat))
        simp [hseen]
      · intro hfe
        exact absurd hfe (by simp)
      · intro _ hlt
        exact absurd hcFull (by omega)
      · have houtnil : out = [] := by
          rw [if_neg (by omega)] at hout
          simpa using hout
        rw [houtnil, if_pos hcFull]
        have hp := runParser_preserves P dt
          (StreamBuffer.get_data
            (mkBuf dev sid dt F plen tX pl (firsts processed ++ [i])))
          r.stats.parse_errors
        simp only [List.nil_append, Option.toList_some, List.map_cons,
          List.map_nil]
        rw [hp.2.2.1, hp.2.2.2, mkBuf_get_data_data, mkBuf_get_data_pr,
          hcFull]
    · rw [if_neg (by simpa using hcFull)]
      unfold RunInv
      rw [hf]
      refine ⟨?_, ?_, ?_, ?_, ?_, ?_⟩
      · show r.stats.packets_received + 1 = (processed ++ [i]).length
        simp only [List.length_append, List.length_singleton]
        omega
      · show r.stats.packets_duplicate + (firsts processed ++ [i]).length
          = (processed ++ [i]).length
        simp only [List.length_append, List.length_singleton]
        omega
      · show (r.seen_packets ++ [((dev, sid, i), t)]).map Prod.fst
          = (firsts processed ++ [i]).map (fun j => ((dev, sid, j) : String × Nat × Nat))
        simp [hseen]
      · intro hfe
        exact absurd hfe (by simp)
      · intro _ _
        refine ⟨tX, ?_⟩
        show updAssoc r.streams (dev, sid)
            (mkBuf dev sid dt F plen tX pl (firsts processed ++ [i]))
          = [((dev, sid), mkBuf dev sid dt F plen tX pl (firsts processed ++ [i]))]
        rcases em (firsts processed = []) with hfe | hfe
        · rw [hstrnil hfe, updAssoc_of_lookup_none _ _ _ (by simp)]
          simp
        · obtain ⟨t0, hst⟩ := hstr hfe hflt
          rw [hst]
          unfold updAssoc
          simp
      · rw [if_neg hcFull]
        rw [if_neg (by omega)] at hout
        simpa using hout


theorem RunInv_run {π : Type} (P : Parsers π) (dev : String)
    (sid dt F plen : Nat) (pl : Nat → Bytes) (frag : Nat → Bytes)
    (hfrag : ∀ i, i < F → parsePacketHeader (frag i)
      = some ⟨dt, sid, F, i, plen, pl i⟩) :
    ∀ (rest : List (Nat × Int)) (processed : List Nat) (r : Receiver π)
      (out : List (CompletedMessage π)),
      (∀ x ∈ processed, x < F) → (∀ q ∈ rest, q.1 < F) →
      RunInv dev sid dt F plen pl processed r out →
      RunInv dev sid dt F plen pl (processed ++ rest.map Prod.fst)
        (runList P dev r (rest.map (fun q => (frag q.1, q.2)))).1
        (out ++ (runList P dev r (rest.map (fun q => (frag q.1, q.2)))).2) := by
  intro rest
  induction rest with
  | nil =>
    intro processed r out _ _ hInv
    simpa [runList] using hInv
  | cons q rest ih =>
    intro processed r out hproc hrest hInv
    have hq : q.1 < F := hrest q (List.mem_cons_self _ _)
    have hstep := RunInv_step P dev sid dt F plen pl processed r out
      (frag q.1) q.1 q.2 (hfrag q.1 hq) hq hproc hInv
    have hproc' : ∀ x ∈ processed ++ [q.1], x < F := by
      intro x hx
      rcases List.mem_append.1 hx with hx | hx
      · exact hproc x hx
      · rw [List.mem_singleton.1 hx]
        exact hq
    have hrest' : ∀ p ∈ rest, p.1 < F :=
      fun p hp => hrest p (List.mem_cons.2 (Or.inr hp))
    have := ih (processed ++ [q.1]) (process_packet P r dev (frag q.1) q.2).1
      (out ++ (process_packet P r dev (frag q.1) q.2).2.toList)
      hproc' hrest' hstep
    simp only [List.map_cons, runList, List.append_assoc] at this ⊢
    simpa using this
theorem RunInv_base {π : Type} (st dto : Int) (dev : String)
    (sid dt F plen : Nat) (pl : Nat → Bytes) (hF : 0 < F) :
    RunInv dev sid dt F plen pl [] (mkReceiver π st dto) [] := by
  unfold RunInv mkReceiver
  refine ⟨rfl, rfl, rfl, fun _ => rfl, fun hne _ => absurd rfl hne, ?_⟩
  rw [if_neg (by intro h; simp [firsts, firstsAux] at h; omega)]
  rfl

theorem count_run_facts (F R : Nat) (l : List Nat) (hR : 1 ≤ R)
    (hmem : ∀ x ∈ l, x < F)
    (hcount : ∀ i, i < F → l.count i = R) :
    l.length = F * R ∧ (firsts l).length = F := by
  have htf : l.toFinset = Finset.range F := by
    ext x
    simp only [List.mem_toFinset, Finset.mem_range]
    constructor
    · exact hmem x
    · intro hx
      have hc := hcount x hx
      have hpos : 0 < l.count x := by omega
      exact List.count_pos_iff.1 hpos
  constructor
  · have hsum := Multiset.toFinset_sum_count_eq (l : Multiset Nat)
    rw [show ((l : Multiset Nat)).toFinset = l.toFinset from rfl] at hsum
    simp only [Multiset.coe_count, Multiset.coe_card] at hsum
    rw [← hsum, htf]
    rw [Finset.sum_congr rfl (fun x hx => hcount x (Finset.mem_range.1 hx))]
    simp [Finset.sum_const, Finset.card_range, Nat.smul_one_eq_cast,
      mul_comm]
  · have hnodup := nodup_firsts l
    have htf2 : (firsts l).toFinset = l.toFinset := by
      ext x
      simp [List.mem_toFinset, mem_firsts]
    calc (firsts l).length = (firsts l).toFinset.card :=
          (List.toFinset_card_of_nodup hnodup).symm
      _ = (Finset.range F).card := by rw [htf2, htf]
      _ = F := Finset.card_range F
theorem lookup_perm_of_nodup_keys {α β : Type} [BEq α] [LawfulBEq α]
    {l1 l2 : List (α × β)} (hperm : l1.Perm l2) (k : α) :
    (l1.map Prod.fst).Nodup → List.lookup k l1 = List.lookup k l2 := by
  induction hperm with
  | nil => intro _; rfl
  | cons p hml ih =>
    intro hnd
    obtain ⟨p1, p2⟩ := p
    simp only [List.lookup_cons]
    cases hpk : k == p1
    · simp only
      exact ih (List.nodup_cons.1 hnd).2
    · rfl
  | swap x y l =>
    intro hnd
    obtain ⟨x1, x2⟩ := x
    obtain ⟨y1, y2⟩ := y
    have h1 : y1 ∉ (⟨x1, x2⟩ :: l).map Prod.fst ∧
        ((⟨x1, x2⟩ :: l).map Prod.fst).Nodup := List.nodup_cons.1 hnd
    have hne : y1 ≠ x1 := fun heq => h1.1 (by simp [heq])
    cases hkx : k == x1 <;> cases hky : k == y1 <;>
      simp only [List.lookup_cons, hkx, hky]
    exact absurd ((eq_of_beq hky).symm.trans (eq_of_beq hkx)) hne
  | trans h12 h23 ih12 ih23 =>
    intro hnd
    rw [ih12 hnd, ih23 ((h12.map Prod.fst).nodup_iff.1 hnd)]

theorem get_data_data_eq_of_lookup (b1 b2 : StreamBuffer)
    (htot : b1.total_packets = b2.total_packets)
    (hplen : b1.payload_length = b2.payload_length)
    (hlk : ∀ k, List.lookup k b1.packets = List.lookup k b2.packets) :
    (StreamBuffer.get_data (π := Unit) b1).data
      = (StreamBuffer.get_data (π := Unit) b2).data := by
  have hfun : (fun seq => List.lookup seq b1.packets)
      = (fun seq => List.lookup seq b2.packets) := funext hlk
  simp only [StreamBuffer.get_data]
  rw [htot, hplen, hfun]

theorem canon_data_perm (dev : String) (sid dt F plen : Nat)
    (pl : Nat → Bytes) (f1 f2 : List Nat) (hperm : f1.Perm f2)
    (hnd : f1.Nodup) :
    ((mkBuf dev sid dt F plen 0 pl f1).get_data (π := Unit)).data
      = ((mkBuf dev sid dt F plen 0 pl f2).get_data (π := Unit)).data := by
  refine get_data_data_eq_of_lookup (mkBuf dev sid dt F plen 0 pl f1)
    (mkBuf dev sid dt F plen 0 pl f2) rfl rfl ?_
  intro k
  have hkeys : ((f1.map (fun j => (j, pl j))).map Prod.fst).Nodup := by
    rw [List.map_map,
      show (Prod.fst ∘ fun j => ((j, pl j) : Nat × Bytes)) = id from rfl,
      List.map_id]
    exact hnd
  exact lookup_perm_of_nodup_keys (hperm.map _) k hkeys
/-- C3 — for every stream of `F` distinct well-formed fragments (one fixed
device, stream id, data type, declared length; sequences `0..F-1`, each
carrying `total_packets = F`), each presented `R ≥ 1` times in any
interleaving (dedup entries never expire during the run: `cleanup` is not
invoked), the final statistics satisfy `received = F*R` and
`duplicate = F*(R-1)`, and exactly one `CompletedMessage`, with
`packets_received = F`, is produced across all the calls. -/
theorem C3_retransmission_statistics (π : Type) (P : Parsers π)
    (st dto : Int) (dev : String) (sid dt F plen R : Nat)
    (pl : Nat → Bytes) (frag : Nat → Bytes) (L : List (Nat × Int))
    (hfrag : ∀ i, i < F → parsePacketHeader (frag i)
      = some ⟨dt, sid, F, i, plen, pl i⟩)
    (hF : 0 < F) (hR : 1 ≤ R)
    (hmem : ∀ q ∈ L, q.1 < F)
    (hcount : ∀ i, i < F → (L.map Prod.fst).count i = R) :
    (runList P dev (mkReceiver π st dto)
      (L.map (fun q => (frag q.1, q.2)))).1.stats.packets_received = F * R ∧
    (runList P dev (mkReceiver π st dto)
      (L.map (fun q => (frag q.1, q.2)))).1.stats.packets_duplicate
      = F * (R - 1) ∧
    ∃ m, (runList P dev (mkReceiver π st dto)
      (L.map (fun q => (frag q.1, q.2)))).2 = [m]
      ∧ m.packets_received = F := by
  have hbase := RunInv_base (π := π) st dto dev sid dt F plen pl hF
  have hrun := RunInv_run P dev sid dt F plen pl frag hfrag L [] _ []
    (by simp) hmem hbase
  simp only [List.nil_append] at hrun
  obtain ⟨hrec, hdupc, _, _, _, hout⟩ := hrun
  obtain ⟨hlen, hflen⟩ := count_run_facts F R (L.map Prod.fst) hR
    (fun x hx => by
      rcases List.mem_map.1 hx with ⟨q, hq, rfl⟩
      exact hmem q hq)
    hcount
  refine ⟨?_, ?_, ?_⟩
  · rw [hrec, hlen]
  · have hmul : F * R = F * (R - 1) + F := by
      have hR1 : R - 1 + 1 = R := Nat.succ_pred_eq_of_pos hR
      calc F * R = F * (R - 1 + 1) := by rw [hR1]
        _ = F * (R - 1) + F := by ring
    omega
  · rw [hflen, if_pos rfl] at hout
    rcases hco : (runList P dev (mkReceiver π st dto)
        (L.map (fun q => (frag q.1, q.2)))).2 with _ | ⟨m, rest⟩
    · rw [hco] at hout
      simp at hout
    · rw [hco] at hout
      simp only [List.map_cons, List.cons.injEq] at hout
      obtain ⟨hm, hrest⟩ := hout
      have hrest0 : rest = [] := by
        cases rest with
        | nil => rfl
        | cons a b => simp at hrest
      refine ⟨m, by rw [hco, hrest0], ?_⟩
      have := congrArg Prod.snd hm
      simpa using this

/-- C4 — reassembly is order-independent: a complete set of unique
well-formed fragments of one stream (consistent headers), fed to
`process_packet` in any two orders, yields byte-identical
`CompletedMessage.data` (each run delivers exactly one message and the
two data fields coincide). -/
theorem C4_order_independent_reassembly (π : Type) (P : Parsers π)
    (st dto : Int) (dev : String) (sid dt F plen : Nat)
    (pl : Nat → Bytes) (frag : Nat → Bytes) (L1 L2 : List (Nat × Int))
    (hfrag : ∀ i, i < F → parsePacketHeader (frag i)
      = some ⟨dt, sid, F, i, plen, pl i⟩)
    (hF : 0 < F)
    (hp1 : (L1.map Prod.fst).Perm (List.range F))
    (hp2 : (L2.map Prod.fst).Perm (List.range F)) :
    ((runList P dev (mkReceiver π st dto)
        (L1.map (fun q => (frag q.1, q.2)))).2.map (fun m => m.data))
      = ((runList P dev (mkReceiver π st dto)
        (L2.map (fun q => (frag q.1, q.2)))).2.map (fun m => m.data)) := by
  have key : ∀ (L : List (Nat × Int)), (L.map Prod.fst).Perm (List.range F) →
      ((runList P dev (mkReceiver π st dto)
        (L.map (fun q => (frag q.1, q.2)))).2.map (fun m => m.data))
      = [((mkBuf dev sid dt F plen 0 pl (L.map Prod.fst)).get_data
            (π := Unit)).data] := by
    intro L hp
    have hnodup : (L.map Prod.fst).Nodup :=
      hp.symm.nodup (List.nodup_range F)
    have hmemF : ∀ q ∈ L, q.1 < F := by
      intro q hq
      have hq2 : q.1 ∈ L.map Prod.fst := List.mem_map.2 ⟨q, hq, rfl⟩
      have := hp.mem_iff.1 hq2
      simpa using this
    have hbase := RunInv_base (π := π) st dto dev sid dt F plen pl hF
    have hrun := RunInv_run P dev sid dt F plen pl frag hfrag L [] _ []
      (by simp) hmemF hbase
    simp only [List.nil_append] at hrun
    obtain ⟨_, _, _, _, _, hout⟩ := hrun
    rw [firsts_of_nodup _ hnodup] at hout
    have hlenF : (L.map Prod.fst).length = F := by
      rw [hp.length_eq, List.length_range]
    rw [if_pos hlenF] at hout
    have hmm : (runList P dev (mkReceiver π st dto)
          (L.map (fun q => (frag q.1, q.2)))).2.map (fun m => m.data)
        = ((runList P dev (mkReceiver π st dto)
            (L.map (fun q => (frag q.1, q.2)))).2.map
              (fun m => (m.data, m.packets_received))).map Prod.fst := by
      rw [List.map_map]
      rfl
    rw [hmm, hout]
    rfl
  rw [key L1 hp1, key L2 hp2]
  have hnodup1 : (L1.map Prod.fst).Nodup :=
    hp1.symm.nodup (List.nodup_range F)
  exact congrArg (fun d => [d])
    (canon_data_perm dev sid dt F plen pl _ _ (hp1.trans hp2.symm) hnodup1)

/-- Fragment `i` of the concrete two-fragment stream (stream 1, total 2,
declared length 2, payload `[i+1]`) used by the run witnesses. -/
def frag2 : Nat → Bytes := fun i =>
  [0xE5, 0xFF, 0xAA, 0x02, 0, 0, 0, 0, 0, 0,
   0x01, 0x00, 0x02, i, 0x02, 0x00, i + 1]

/-- The payload of fragment `i` of the witness stream. -/
def pl2 : Nat → Bytes := fun i => [i + 1]

/-- Both fragments presented twice: `F = 2`, `R = 2`. -/
def C3L : List (Nat × Int) := [(0, 0), (1, 1), (0, 2), (1, 3)]

/-- Witness for C3 at `F = 2`, `R = 2`: 4 fragments fed, final stats
`received = 4`, `duplicate = 2`, exactly one completed message holding
both fragments. -/
theorem C3_retransmission_statistics_witness :
    (∀ i, i < 2 → parsePacketHeader (frag2 i)
      = some ⟨2, 1, 2, i, 2, [i + 1]⟩) ∧
    (∀ q ∈ C3L, q.1 < 2) ∧
    (∀ i, i < 2 → ((C3L.map Prod.fst).count i = 2)) ∧
    (runList noParsers "d" recvU
      (C3L.map (fun q => (frag2 q.1, q.2)))).1.stats.packets_received
      = 2 * 2 ∧
    (runList noParsers "d" recvU
      (C3L.map (fun q => (frag2 q.1, q.2)))).1.stats.packets_duplicate
      = 2 * (2 - 1) ∧
    ∃ m, (runList noParsers "d" recvU
      (C3L.map (fun q => (frag2 q.1, q.2)))).2 = [m]
      ∧ m.packets_received = 2 :=
  ⟨by decide, by decide, by decide,
   (C3_retransmission_statistics Unit noParsers 60 120 "d" 1 2 2 2 2 pl2
      frag2 C3L (by decide) (by decide) (by decide) (by decide)
      (by decide)).1,
   (C3_retransmission_statistics Unit noParsers 60 120 "d" 1 2 2 2 2 pl2
      frag2 C3L (by decide) (by decide) (by decide) (by decide)
      (by decide)).2.1,
   (C3_retransmission_statistics Unit noParsers 60 120 "d" 1 2 2 2 2 pl2
      frag2 C3L (by decide) (by decide) (by decide) (by decide)
      (by decide)).2.2⟩

/-- The two fragments in arrival order `0, 1`. -/
def C4L1 : List (Nat × Int) := [(0, 0), (1, 1)]

/-- The two fragments in arrival order `1, 0`. -/
def C4L2 : List (Nat × Int) := [(1, 0), (0, 1)]

/-- Witness for C4: feeding the two unique fragments in either order
yields byte-identical completed data. -/
theorem C4_order_independent_reassembly_witness :
    (C4L1.map Prod.fst).Perm (List.range 2) ∧
    (C4L2.map Prod.fst).Perm (List.range 2) ∧
    ((runList noParsers "d" recvU
        (C4L1.map (fun q => (frag2 q.1, q.2)))).2.map (fun m => m.data))
      = ((runList noParsers "d" recvU
        (C4L2.map (fun q => (frag2 q.1, q.2)))).2.map (fun m => m.data)) :=
  ⟨by decide, by decide,
   C4_order_independent_reassembly Unit noParsers 60 120 "d" 1 2 2 2 pl2
     frag2 C4L1 C4L2 (by decide) (by decide) (by decide) (by decide)⟩
